import Mathlib

/-!
Shallow embedding of the `release-maker` tool (sources: `src/git.rs`,
`src/release.rs`): the bounded commit walker, the `OneOrMore`
scalar-or-array codec, the release data model, and the markdown changelog
renderer, together with theorems settling the specification claims.

Rust `String` values are modelled as Lean `String` values; `len()` and the
7-character hash checks are modelled over characters (the program only
handles ASCII hex hashes and ASCII markdown, where bytes and characters
coincide). Process-aborting `assert!`/`unwrap` failures are modelled as a
distinct `panic` outcome, separate from recoverable (`serde`) errors.
-/

/-- Serialized values as seen by the serde data model, restricted to the
shapes the `OneOrMore` codec distinguishes: strings, sequences, and
everything else (numbers, booleans, null, maps), which its visitor
rejects with an invalid-type error. -/
inductive JValue : Type where
  | str : String → JValue
  | arr : List JValue → JValue
  | other : JValue

/-- Outcome of a deserialization: success, a recoverable serde error
(`Error::custom` or serde's invalid-type rejection), or a process-aborting
panic (an `assert!` failure in the source). -/
inductive DeOutcome (α : Type) : Type where
  | ok : α → DeOutcome α
  | err : String → DeOutcome α
  | panic : String → DeOutcome α
deriving DecidableEq

/-- True exactly on the recoverable serde-error outcome. -/
def DeOutcome.isErr : DeOutcome α → Bool
  | .err _ => true
  | _ => false

/-- The element loop of `OneOrMore::deserialize`'s `visit_seq`
(src/release.rs lines 64-74): each sequence element is deserialized as a
`String` (a non-string element is an invalid-type error), then converted
through `T::try_from`; the first failing element aborts the whole decode
with the custom message. -/
def decodeElems {E T : Type} (tf : String → Except E T) : List JValue → DeOutcome (List T)
  | [] => .ok []
  | JValue.str s :: rest =>
    match tf s with
    | .ok item =>
      match decodeElems tf rest with
      | .ok v => .ok (item :: v)
      | .err e => .err e
      | .panic m => .panic m
    | .error _ => .err "failed to parse from string"
  | _ :: _ => .err "invalid type"

/-- `visit_seq` of `OneOrMore::deserialize` (src/release.rs lines 64-79):
decode the elements, then `assert!(v.len() >= 1, "expected at least one
string")` before returning. -/
def visitSeq {E T : Type} (tf : String → Except E T) (elems : List JValue) : DeOutcome (List T) :=
  match decodeElems tf elems with
  | .ok v => if 1 ≤ v.length then .ok v else .panic "expected at least one string"
  | .err e => .err e
  | .panic m => .panic m

/-- `visit_str` of `OneOrMore::deserialize` (src/release.rs lines 55-62):
a bare scalar string decodes through `T::try_from` into a one-element
list. -/
def visitStr {E T : Type} (tf : String → Except E T) (s : String) : DeOutcome (List T) :=
  match tf s with
  | .ok item => .ok [item]
  | .error _ => .err "failed to parse from string"

/-- `OneOrMore::deserialize` (src/release.rs lines 38-84):
`deserialize_any` dispatches a string to `visit_str`, a sequence to
`visit_seq`, and rejects every other shape with serde's invalid-type
error. The result is the inner `Vec<T>` of the `OneOrMore` wrapper. -/
def deserializeOneOrMore {E T : Type} (tf : String → Except E T) : JValue → DeOutcome (List T)
  | .str s => visitStr tf s
  | .arr elems => visitSeq tf elems
  | .other => .err "invalid type"

/-- `OneOrMore::serialize` (src/release.rs lines 19-36): a one-element
list serializes as the bare element, anything else as a sequence of the
elements in order. -/
def serializeOneOrMore {T : Type} (ser : T → JValue) (l : List T) : JValue :=
  match l with
  | [x] => ser x
  | _ => JValue.arr (l.map ser)

/-- Release-side `Author` (src/release.rs line 88): wraps a display name.
Equality and hashing are by the name. -/
structure Author : Type where
  name : String
deriving DecidableEq

/-- `TryFrom<String> for Author` (src/release.rs lines 115-122): the
conversion is infallible (`Error = Infallible`, modelled by `Empty`). -/
def Author.tryFromString (s : String) : Except Empty Author :=
  Except.ok ⟨s⟩

/-- `Display for Author` (src/release.rs lines 107-113): a Github mention
link label. -/
def Author.display (a : Author) : String :=
  "[@" ++ a.name ++ "]"

/-- The derived `Serialize` of the newtype `Author(String)`: the bare
name string. -/
def Author.toJson (a : Author) : JValue :=
  JValue.str a.name

/-- Release-side `Commit` (src/release.rs line 126): wraps a hash
string. -/
structure Commit : Type where
  hash : String
deriving DecidableEq

/-- `CommitConversionError` (src/release.rs lines 158-162): carries the
offending string. -/
structure CommitConversionError : Type where
  offending : String
deriving DecidableEq

/-- `TryFrom<String> for Commit` (src/release.rs lines 173-192): a string
shorter than 7 characters is rejected with a `CommitConversionError`
carrying it; otherwise the commit wraps the string. -/
def Commit.tryFromString (s : String) : Except CommitConversionError Commit :=
  if s.length < 7 then Except.error ⟨s⟩ else Except.ok ⟨s⟩

/-- `Display for Commit` (src/release.rs lines 194-201): a short commit
reference using the first 7 characters of the hash. -/
def Commit.display (c : Commit) : String :=
  "[c:" ++ c.hash.take 7 ++ "]"

/-- The derived `Serialize` of the newtype `Commit(String)`: the bare
hash string. -/
def Commit.toJson (c : Commit) : JValue :=
  JValue.str c.hash

/-- `Change` (src/release.rs lines 209-233): a tuple struct
`(category, name, authors, commits)`; the `OneOrMore` wrappers are
modelled by their wrapped `Vec` contents. -/
structure Change : Type where
  category : String
  name : String
  authors : List Author
  commits : List Commit
deriving DecidableEq

/-- `Release` (src/release.rs lines 236-252): the four category lists
default to empty when absent from input. -/
structure Release : Type where
  repo_url : String
  added : List Change
  changed : List Change
  fixed : List Change
  removed : List Change
deriving DecidableEq

/-- `Release::iter` (src/release.rs lines 255-261): all changes in the
fixed order added, changed, fixed, removed. -/
def Release.iter (r : Release) : List Change :=
  r.added ++ r.changed ++ r.fixed ++ r.removed

/-- The stream of author references `Release::get_authors` feeds into its
`HashSet` (src/release.rs lines 263-270), in source order. -/
def Release.allAuthors (r : Release) : List Author :=
  r.iter.flatMap Change.authors

/-- The contents of `get_authors`'s `HashSet<Author>` as a canonical
duplicate-free list. A concrete run of `get_authors` returns these
elements in an unspecified (hash-dependent) iteration order; see
`Release.ValidAuthors`. -/
def Release.authorSet (r : Release) : List Author :=
  r.allAuthors.dedup

/-- The possible results of `Release::get_authors` (src/release.rs lines
263-270): any enumeration of the deduplicated author set. The renderer
below takes such a list as an explicit parameter, making the hash-set
iteration-order nondeterminism visible. -/
abbrev Release.ValidAuthors (r : Release) (choice : List Author) : Prop :=
  choice.Perm r.authorSet

/-- `Release::get_commits` (src/release.rs lines 272-277): all commit
references of all changes, in nested source order, without
deduplication. -/
def Release.get_commits (r : Release) : List Commit :=
  r.iter.flatMap Change.commits

/-- Lowercasing as used by the author sort: Rust's
`a.name().to_lowercase()`, modelled character-wise (the comparison is on
the lowercased character sequence). -/
def lowerChars (s : String) : List Char :=
  s.data.map Char.toLower

/-- Lexicographic less-or-equal on character sequences, by code point
(this equals Rust's byte-wise `String::cmp` order, since UTF-8 preserves
code-point order). -/
def charListLe : List Char → List Char → Bool
  | [], _ => true
  | _ :: _, [] => false
  | a :: as, b :: bs =>
    if a.toNat < b.toNat then true
    else if b.toNat < a.toNat then false
    else charListLe as bs

/-- The comparator of `generate_msg`'s author sort (src/release.rs line
337): compare lowercased names. -/
def authorLe (a b : Author) : Bool :=
  charListLe (lowerChars a.name) (lowerChars b.name)

/-- Stable insertion of one element into a sorted list: the element goes
before the first existing element it compares less-or-equal to. -/
def insertSorted (le : α → α → Bool) (x : α) : List α → List α
  | [] => [x]
  | y :: ys => if le x y then x :: y :: ys else y :: insertSorted le x ys

/-- Stable sort (insertion sort). Rust's `sort_by` is a stable sort; a
stable sort's output is uniquely determined by the comparator and the
input order, so this models `Vec::sort_by` exactly. -/
def stableSort (le : α → α → Bool) (l : List α) : List α :=
  l.foldr (insertSorted le) []

/-- The author sort of `generate_msg` (src/release.rs lines 335-337). -/
def sortAuthors (l : List Author) : List Author :=
  stableSort authorLe l

/-- `write_separated` (src/release.rs lines 280-299): the displayed
items interleaved with the separator (the source's first-element flag
loop computes exactly this). -/
def write_separated (sep : String) (items : List String) : String :=
  String.intercalate sep items

/-- The line `write_list` emits for one `Change` (src/release.rs lines
313-319). -/
def changeLine (c : Change) : String :=
  "- [" ++ c.category ++ "] " ++ c.name ++ " ("
    ++ write_separated " " (c.authors.map Author.display) ++ ") "
    ++ write_separated " " (c.commits.map Commit.display) ++ "\n"

/-- The per-change loop of `write_list` (src/release.rs lines 308-320):
each change first trips the non-empty-category assertion (a panic,
modelled as the `Except` error carrying the panic message), then appends
its line. -/
def write_changes : List Change → Except String String
  | [] => Except.ok ""
  | c :: rest =>
    if c.category = "" then Except.error "categores cannot be empty"
    else
      match write_changes rest with
      | Except.ok s => Except.ok (changeLine c ++ s)
      | Except.error e => Except.error e

/-- `write_list` (src/release.rs lines 301-325): nothing for an empty
category list; otherwise the header, a blank line, the change lines, and
a trailing blank line. -/
def write_list (header : String) (changes : List Change) : Except String String :=
  if changes.isEmpty then Except.ok ""
  else
    match write_changes changes with
    | Except.ok body => Except.ok (header ++ "\n\n" ++ body ++ "\n")
    | Except.error e => Except.error e

/-- One category block in the closed form the spec describes (heading,
blank line, one line per change, trailing blank line; nothing when
empty). `write_list` is proved to refine this. -/
def catBlock (header : String) (changes : List Change) : String :=
  if changes.isEmpty then ""
  else header ++ "\n\n" ++ String.join (changes.map changeLine) ++ "\n"

/-- The thanks-section bullet lines of `generate_msg` (src/release.rs
lines 341-343). -/
def authorBullets (authors : List Author) : String :=
  String.join (authors.map fun a => "- " ++ a.display ++ "\n")

/-- The author reference-link lines of `generate_msg` (src/release.rs
lines 352-354). -/
def authorLinkLines (authors : List Author) : String :=
  String.join (authors.map fun a => a.display ++ ": https://github.com/" ++ a.name ++ "\n")

/-- The commit reference-link lines of `generate_msg` (src/release.rs
lines 358-366). -/
def commitLinkLines (repoUrl : String) (commits : List Commit) : String :=
  String.join (commits.map fun c => c.display ++ ": " ++ repoUrl ++ "/commit/" ++ c.hash ++ "\n")

/-- `generate_msg` (src/release.rs lines 332-369). The writes into the
caller's buffer are modelled as string concatenation in source order; the
`authorsChoice` parameter stands for the unordered `HashSet` enumeration
returned by `get_authors` (see `Release.ValidAuthors`), which the source
sorts before use. A panic from `write_list`'s assertion aborts the whole
render. -/
def generate_msg (authorsChoice : List Author) (rel : Release) : Except String String :=
  match write_list "### Added" rel.added, write_list "### Changed" rel.changed,
      write_list "### Fixed" rel.fixed, write_list "### Removed" rel.removed with
  | Except.error e, _, _, _ => Except.error e
  | Except.ok _, Except.error e, _, _ => Except.error e
  | Except.ok _, Except.ok _, Except.error e, _ => Except.error e
  | Except.ok _, Except.ok _, Except.ok _, Except.error e => Except.error e
  | Except.ok addedB, Except.ok changedB, Except.ok fixedB, Except.ok removedB =>
    Except.ok ("Thanks to the following for their contributions:\n\n"
      ++ authorBullets (sortAuthors authorsChoice) ++ "\n"
      ++ addedB ++ changedB ++ fixedB ++ removedB
      ++ authorLinkLines (sortAuthors authorsChoice) ++ "\n"
      ++ commitLinkLines rel.repo_url rel.get_commits)

/-- The payload of the render result (the output text on success, the
panic message on failure). -/
def exceptPayload : Except String String → String
  | Except.ok s => s
  | Except.error e => e

/-- The spec's author-dedup example: a release whose changes reference
authors bob, Alice, bob again. -/
def relC5 : Release :=
  ⟨"https://github.com/o/r",
    [⟨"fix", "x", [Author.mk "bob"], [Commit.mk "1234567"]⟩],
    [⟨"fix", "y", [Author.mk "Alice"], [Commit.mk "2345678"]⟩],
    [⟨"fix", "z", [Author.mk "bob"], [Commit.mk "3456789"]⟩],
    []⟩

/-- A release containing a change whose category is the empty string. -/
def relC8 : Release :=
  ⟨"https://github.com/o/r",
    [⟨"", "x", [Author.mk "a"], [Commit.mk "1234567"]⟩], [], [], []⟩

/-- A release with two distinct authors whose names differ only by
case. -/
def relC9 : Release :=
  ⟨"https://github.com/o/r",
    [⟨"misc", "w", [Author.mk "Bob", Author.mk "bob"], [Commit.mk "1234567"]⟩],
    [], [], []⟩

namespace Git

/-- `git::User` (src/git.rs lines 6-10). -/
structure User : Type where
  name : String
  email : String
deriving DecidableEq

/-- `git::Commit` (src/git.rs lines 12-19): one extracted commit
record. -/
structure Commit : Type where
  hash : String
  author : User
  committer : User
  message : String
deriving DecidableEq

/-- A commit object as stored in the repository, with the fields
`Commits::next` extracts. The walker unwraps author and committer name,
email and the summary line, so only objects carrying them are modelled
(absence panics in the source). `parent` is the single parent of a
linear history (`none` for the root commit). -/
structure CommitObj : Type where
  id : String
  authorName : String
  authorEmail : String
  committerName : String
  committerEmail : String
  summary : String
  parent : Option String
deriving DecidableEq

/-- `repo.find_commit(oid)` over the modelled object store. -/
def findCommit (repo : List CommitObj) (oid : String) : Option CommitObj :=
  repo.find? fun c => c.id == oid

/-- The oid sequence a `Revwalk` seeded by pushing `root` delivers over a
linear history: the commit followed by its ancestors (both the
topological order requested by `Repository::commits` and libgit2's
default order coincide with this on a linear chain). Fuelled by the
store size; a missing object ends the walk. -/
def ancestry (repo : List CommitObj) : Nat → Option String → List String
  | _, none => []
  | 0, some _ => []
  | fuel + 1, some oid =>
    match findCommit repo oid with
    | none => []
    | some obj => oid :: ancestry repo fuel obj.parent

/-- `git::Commits` (src/git.rs lines 28-32): the repository handle, the
revwalk cursor (its remaining oid sequence), and the inclusive end
boundary oid. -/
structure Commits : Type where
  repo : List CommitObj
  cursor : List String
  endOid : String
deriving DecidableEq

/-- `Commits::start` (src/git.rs lines 41-45): reset the revwalk and
push the given commit, so the cursor becomes a fresh walk from it. -/
def Commits.start (w : Commits) (hash : String) : Commits :=
  Commits.mk w.repo (ancestry w.repo w.repo.length (some hash)) w.endOid

/-- `Commits::end` (src/git.rs lines 53-56; `end` is reserved in Lean):
only replaces the stopping oid, leaving the cursor untouched. -/
def Commits.setEnd (w : Commits) (hash : String) : Commits :=
  Commits.mk w.repo w.cursor hash

/-- `Commits::next` (src/git.rs lines 62-96): pull the next oid (none
left ends the sequence); a failed commit lookup also ends the sequence;
otherwise build the record, and if this oid equals the end boundary,
reset the revwalk — empty the cursor — so that nothing further is ever
yielded, while still returning this commit. -/
def Commits.next (w : Commits) : Option Commit × Commits :=
  match w.cursor with
  | [] => (none, w)
  | oid :: rest =>
    match findCommit w.repo oid with
    | none => (none, Commits.mk w.repo rest w.endOid)
    | some obj =>
      let c : Commit :=
        Commit.mk obj.id (User.mk obj.authorName obj.authorEmail)
          (User.mk obj.committerName obj.committerEmail) obj.summary
      if oid = w.endOid then (some c, Commits.mk w.repo [] w.endOid)
      else (some c, Commits.mk w.repo rest w.endOid)

/-- Applying `next` repeatedly, keeping only the final state. -/
def Commits.stepN : Nat → Commits → Commits
  | 0, w => w
  | n + 1, w => Commits.stepN n (Commits.next w).2

/-- Collecting the records of up to `n` calls of `next`, stopping at the
first end-of-sequence answer. -/
def Commits.takeAll : Nat → Commits → List Commit
  | 0, _ => []
  | n + 1, w =>
    match Commits.next w with
    | (none, _) => []
    | (some c, w2) => c :: Commits.takeAll n w2

/-- The sentinel `git2::Oid::from_str("0")` parses to (src/git.rs line
138): the all-zero object id, which matches no real commit. -/
def zeroOid : String := "0000000000000000000000000000000000000000"

/-- `git::Repository` (src/git.rs lines 103-141) over the modelled
store: the commit objects, the remote-tracking branch tips
(`refs/remotes/origin/<branch>`), and the `origin` fetch URL. -/
structure Repository : Type where
  objects : List CommitObj
  branches : List (String × String)
  originUrl : String

/-- `Repository::commits` (src/git.rs lines 126-140): resolve the
remote-tracking reference of the branch, seed a topological revwalk at
its target, and initialize the end boundary to the sentinel. -/
def Repository.commits (r : Repository) (branch : String) : Option Commits :=
  (r.branches.lookup branch).map fun tip =>
    Commits.mk r.objects (ancestry r.objects r.objects.length (some tip)) zeroOid

/-- An empty walker used only as the fallback of `Option.getD`. -/
def emptyWalker : Commits := Commits.mk [] [] zeroOid

/-- Oid of the oldest commit of the example chain. -/
def oid1 : String := "1111111111111111111111111111111111111111"

/-- Oid of the middle commit of the example chain. -/
def oid2 : String := "2222222222222222222222222222222222222222"

/-- Oid of the tip commit of the example chain. -/
def oid3 : String := "3333333333333333333333333333333333333333"

/-- The example linear chain C1 (oldest) to C3 (tip) of spec property 3,
with `master` at C3. -/
def exampleObjs : List CommitObj :=
  [CommitObj.mk oid1 "alice" "alice@example.com" "alice" "alice@example.com" "first" none,
   CommitObj.mk oid2 "bob" "bob@example.com" "bob" "bob@example.com" "second" (some oid1),
   CommitObj.mk oid3 "carol" "carol@example.com" "carol" "carol@example.com" "third" (some oid2)]

/-- The example repository. -/
def exampleRepo : Repository :=
  Repository.mk exampleObjs [(⟨"master", oid3⟩ : String × String)] "https://github.com/o/r"

/-- `commits("master").start(C3).end(C1)` on the example repository. -/
def exampleWalker : Commits :=
  (((exampleRepo.commits "master").getD emptyWalker).start oid3).setEnd oid1

/-- The record extracted for the example's oldest commit. -/
def recC1 : Commit :=
  Commit.mk oid1 (User.mk "alice" "alice@example.com")
    (User.mk "alice" "alice@example.com") "first"

/-- The record extracted for the example's middle commit. -/
def recC2 : Commit :=
  Commit.mk oid2 (User.mk "bob" "bob@example.com")
    (User.mk "bob" "bob@example.com") "second"

/-- The record extracted for the example's tip commit. -/
def recC3 : Commit :=
  Commit.mk oid3 (User.mk "carol" "carol@example.com")
    (User.mk "carol" "carol@example.com") "third"

end Git

/-- Decoding a list of bare strings element-wise succeeds when every
element's string conversion succeeds on it. -/
theorem decodeElems_map_str {E T : Type} (tf : String → Except E T) (ser : T → String) :
    ∀ l : List T, (∀ t ∈ l, tf (ser t) = Except.ok t) →
      decodeElems tf (l.map fun u => JValue.str (ser u)) = DeOutcome.ok l := by
  intro l h
  induction l with
  | nil => rfl
  | cons x xs ih =>
    have hx : tf (ser x) = Except.ok x := h x (List.mem_cons_self x xs)
    have hxs := ih fun t ht => h t (List.mem_cons_of_mem x ht)
    simp [decodeElems, hx, hxs]

/-- Decoding any array of bare strings with the `Author` conversion
succeeds element-wise. -/
theorem decodeElems_author (l : List String) :
    decodeElems Author.tryFromString (l.map JValue.str) = DeOutcome.ok (l.map Author.mk) := by
  induction l with
  | nil => rfl
  | cons x xs ih => simp [decodeElems, Author.tryFromString, ih]

/-- Claim C2: for every non-empty `OneOrMore` list whose element codec
round-trips the list's members, a one-element list encodes as the bare
scalar of its element, an N-element list (N at least 2) encodes as an
array of length N, and in both cases decoding the encoding reproduces the
original list in order. -/
theorem oneOrMore_scalar_array_roundtrip :
    ∀ {E T : Type} (tf : String → Except E T) (ser : T → String) (l : List T),
      (∀ t ∈ l, tf (ser t) = Except.ok t) →
      (∀ t, l = [t] → serializeOneOrMore (fun u => JValue.str (ser u)) l = JValue.str (ser t))
      ∧ (2 ≤ l.length →
          serializeOneOrMore (fun u => JValue.str (ser u)) l
            = JValue.arr (l.map fun u => JValue.str (ser u))
          ∧ (l.map fun u => JValue.str (ser u)).length = l.length)
      ∧ (l ≠ [] →
          deserializeOneOrMore tf (serializeOneOrMore (fun u => JValue.str (ser u)) l)
            = DeOutcome.ok l) := by
  intro E T tf ser l h
  refine ⟨?_, ?_, ?_⟩
  · intro t ht
    subst ht
    rfl
  · intro hlen
    match l, hlen with
    | x :: y :: xs, _ => exact ⟨rfl, by simp⟩
  · intro hne
    match l, hne with
    | [x], _ =>
      have hx : tf (ser x) = Except.ok x := h x (List.mem_singleton.mpr rfl)
      simp [serializeOneOrMore, deserializeOneOrMore, visitStr, hx]
    | x :: y :: xs, _ =>
      have hd := decodeElems_map_str tf ser (x :: y :: xs) h
      simp only [List.map_cons] at hd
      simp [serializeOneOrMore, deserializeOneOrMore, visitSeq, hd]

/-- Witness for claim C2 at a concrete two-element author list. -/
theorem oneOrMore_scalar_array_roundtrip_witness :
    deserializeOneOrMore Author.tryFromString
        (serializeOneOrMore (fun u => JValue.str (Author.name u))
          [Author.mk "alice", Author.mk "bob"])
      = DeOutcome.ok [Author.mk "alice", Author.mk "bob"] :=
  (oneOrMore_scalar_array_roundtrip Author.tryFromString Author.name
      [Author.mk "alice", Author.mk "bob"] (fun t _ => rfl)).2.2 (by decide)

/-- Counterexample for claim C3 as stated: decoding the empty array does
not produce a recoverable decode error; it trips the source's `assert!`
and aborts (a panic). -/
theorem empty_array_decode_is_panic_not_error :
    deserializeOneOrMore Author.tryFromString (JValue.arr [])
        = DeOutcome.panic "expected at least one string"
    ∧ (deserializeOneOrMore Author.tryFromString (JValue.arr [])).isErr = false :=
  ⟨rfl, rfl⟩

/-- Claim C3 (amended): decoding an empty array as a `OneOrMore` list
fails — via the fatal assertion `expected at least one string` (a panic),
not a recoverable decode error — and decoding never succeeds with zero
elements, for any element type. -/
theorem empty_array_decode_never_succeeds :
    ∀ {E T : Type} (tf : String → Except E T),
      deserializeOneOrMore tf (JValue.arr []) = DeOutcome.panic "expected at least one string"
      ∧ ∀ v : JValue, deserializeOneOrMore tf v ≠ DeOutcome.ok [] := by
  intro E T tf
  constructor
  · rfl
  · intro v
    cases v with
    | str s =>
      simp only [deserializeOneOrMore, visitStr]
      cases tf s <;> simp
    | arr elems =>
      simp only [deserializeOneOrMore, visitSeq]
      cases hd : decodeElems tf elems with
      | ok w =>
        by_cases hw : 1 ≤ w.length
        · simp only [hw, if_pos]
          intro hcontra
          cases hcontra
          simp at hw
        · simp [hw]
      | err e => simp
      | panic m => simp
    | other => simp [deserializeOneOrMore]

/-- Witness for the amended claim C3 at a concrete scalar input. -/
theorem empty_array_decode_never_succeeds_witness :
    deserializeOneOrMore Author.tryFromString (JValue.str "alice") ≠ DeOutcome.ok [] :=
  (empty_array_decode_never_succeeds Author.tryFromString).2 (JValue.str "alice")

/-- Claim C4: converting a string to a release-side `Commit` fails with a
`CommitConversionError` carrying the string exactly when the string is
shorter than 7 characters, and succeeds otherwise; in particular
`abc123` fails carrying itself and `abc1234` succeeds. -/
theorem commit_tryFrom_length_check :
    (∀ s : String, s.length < 7 → Commit.tryFromString s = Except.error ⟨s⟩)
    ∧ (∀ s : String, 7 ≤ s.length → Commit.tryFromString s = Except.ok ⟨s⟩)
    ∧ Commit.tryFromString "abc123" = Except.error ⟨"abc123"⟩
    ∧ Commit.tryFromString "abc1234" = Except.ok ⟨"abc1234"⟩ := by
  refine ⟨?_, ?_, rfl, rfl⟩
  · intro s hs
    simp [Commit.tryFromString, hs]
  · intro s hs
    simp [Commit.tryFromString, Nat.not_lt.mpr hs]

/-- Witness for claim C4 at the concrete inputs named by the spec. -/
theorem commit_tryFrom_length_check_witness :
    Commit.tryFromString "abc123" = Except.error ⟨"abc123"⟩
    ∧ Commit.tryFromString "abc1234" = Except.ok ⟨"abc1234"⟩ :=
  ⟨commit_tryFrom_length_check.1 "abc123" (by decide),
   commit_tryFrom_length_check.2.1 "abc1234" (by decide)⟩

/-- Claim C10: the `Author` string conversion is infallible — every
string, including the empty string, is accepted — so decoding an authors
field never fails because of an individual element's content: every bare
string decodes, and every non-empty array of strings decodes
element-wise. -/
theorem author_conversion_infallible :
    (∀ s : String, Author.tryFromString s = Except.ok (Author.mk s))
    ∧ (∀ s : String,
        deserializeOneOrMore Author.tryFromString (JValue.str s) = DeOutcome.ok [Author.mk s])
    ∧ (∀ l : List String, l ≠ [] →
        deserializeOneOrMore Author.tryFromString (JValue.arr (l.map JValue.str))
          = DeOutcome.ok (l.map Author.mk)) := by
  refine ⟨fun s => rfl, fun s => rfl, ?_⟩
  intro l hne
  have hd := decodeElems_author l
  simp [deserializeOneOrMore, visitSeq, hd, hne]

/-- Witness for claim C10 at a concrete author array (including the
empty-string author). -/
theorem author_conversion_infallible_witness :
    deserializeOneOrMore Author.tryFromString (JValue.arr [JValue.str "", JValue.str "bob"])
      = DeOutcome.ok [Author.mk "", Author.mk "bob"] :=
  author_conversion_infallible.2.2 ["", "bob"] (by decide)

/-- `charListLe` is total. -/
theorem charListLe_total : ∀ a b : List Char, charListLe a b = true ∨ charListLe b a = true := by
  intro a
  induction a with
  | nil => intro b; left; rfl
  | cons x xs ih =>
    intro b
    cases b with
    | nil => right; rfl
    | cons y ys =>
      by_cases h1 : x.toNat < y.toNat
      · left; simp [charListLe, h1]
      · by_cases h2 : y.toNat < x.toNat
        · right; simp [charListLe, h2]
        · rcases ih ys with h | h
          · left; simp [charListLe, h1, h2, h]
          · right; simp [charListLe, h1, h2, h]

/-- `charListLe` is transitive. -/
theorem charListLe_trans :
    ∀ a b c : List Char, charListLe a b = true → charListLe b c = true → charListLe a c = true := by
  intro a
  induction a with
  | nil => intro b c _ _; rfl
  | cons x xs ih =>
    intro b c hab hbc
    cases b with
    | nil => simp [charListLe] at hab
    | cons y ys =>
      cases c with
      | nil => simp [charListLe] at hbc
      | cons z zs =>
        simp only [charListLe] at hab hbc ⊢
        split_ifs at hab hbc ⊢ <;>
          first
          | rfl
          | omega
          | exact ih ys zs hab hbc

/-- Mutual `charListLe` forces equality of the key sequences. -/
theorem charListLe_antisymm :
    ∀ a b : List Char, charListLe a b = true → charListLe b a = true → a = b := by
  intro a
  induction a with
  | nil =>
    intro b _ hba
    cases b with
    | nil => rfl
    | cons y ys => simp [charListLe] at hba
  | cons x xs ih =>
    intro b hab hba
    cases b with
    | nil => simp [charListLe] at hab
    | cons y ys =>
      simp only [charListLe] at hab hba
      split_ifs at hab hba with h1 h2
      · omega
      · have hn : x.toNat = y.toNat := by omega
        have hxy : x = y := Char.ext (UInt32.toNat.inj hn)
        rw [hxy, ih ys hab hba]

/-- The author comparator is total. -/
theorem authorLe_total : ∀ a b : Author, authorLe a b = true ∨ authorLe b a = true :=
  fun a b => charListLe_total (lowerChars a.name) (lowerChars b.name)

/-- The author comparator is transitive. -/
theorem authorLe_trans :
    ∀ a b c : Author, authorLe a b = true → authorLe b c = true → authorLe a c = true :=
  fun a b c => charListLe_trans (lowerChars a.name) (lowerChars b.name) (lowerChars c.name)

/-- Inserting permutes to consing. -/
theorem insertSorted_perm (le : α → α → Bool) (x : α) :
    ∀ l : List α, (insertSorted le x l).Perm (x :: l) := by
  intro l
  induction l with
  | nil => exact List.Perm.refl _
  | cons y ys ih =>
    simp only [insertSorted]
    by_cases h : le x y = true
    · rw [if_pos h]
    · rw [if_neg h]
      exact (ih.cons y).trans (List.Perm.swap x y ys)

/-- Membership after insertion. -/
theorem mem_insertSorted (le : α → α → Bool) (x z : α) (l : List α) :
    z ∈ insertSorted le x l ↔ z = x ∨ z ∈ l := by
  have h := (insertSorted_perm le x l).mem_iff (a := z)
  simpa using h

/-- Insertion preserves sortedness, for a transitive total comparator. -/
theorem pairwise_insertSorted (le : α → α → Bool)
    (htrans : ∀ a b c, le a b = true → le b c = true → le a c = true)
    (htot : ∀ a b, le a b = true ∨ le b a = true) (x : α) :
    ∀ l : List α, l.Pairwise (fun a b => le a b = true) →
      (insertSorted le x l).Pairwise (fun a b => le a b = true) := by
  intro l
  induction l with
  | nil => intro _; simp [insertSorted]
  | cons y ys ih =>
    intro h
    rcases List.pairwise_cons.mp h with ⟨hy, hys⟩
    simp only [insertSorted]
    by_cases hxy : le x y = true
    · rw [if_pos hxy]
      refine List.pairwise_cons.mpr ⟨?_, h⟩
      intro z hz
      rcases List.mem_cons.mp hz with rfl | hz2
      · exact hxy
      · exact htrans x y z hxy (hy z hz2)
    · rw [if_neg hxy]
      have hyx : le y x = true := (htot x y).resolve_left hxy
      refine List.pairwise_cons.mpr ⟨?_, ih hys⟩
      intro z hz
      rcases (mem_insertSorted le x z ys).mp hz with rfl | hz2
      · exact hyx
      · exact hy z hz2

/-- The stable sort permutes its input. -/
theorem stableSort_perm (le : α → α → Bool) : ∀ l : List α, (stableSort le l).Perm l := by
  intro l
  induction l with
  | nil => exact List.Perm.refl _
  | cons x xs ih =>
    have hstep : stableSort le (x :: xs) = insertSorted le x (stableSort le xs) := rfl
    rw [hstep]
    exact (insertSorted_perm le x (stableSort le xs)).trans (ih.cons x)

/-- The stable sort sorts, for a transitive total comparator. -/
theorem pairwise_stableSort (le : α → α → Bool)
    (htrans : ∀ a b c, le a b = true → le b c = true → le a c = true)
    (htot : ∀ a b, le a b = true ∨ le b a = true) :
    ∀ l : List α, (stableSort le l).Pairwise (fun a b => le a b = true) := by
  intro l
  induction l with
  | nil => simp [stableSort]
  | cons x xs ih => exact pairwise_insertSorted le htrans htot x _ ih

/-- Two sorted permutations of each other are equal, when the order is
antisymmetric on the elements involved. -/
theorem eq_of_perm_of_pairwise {α : Type} {R : α → α → Prop} :
    ∀ {l1 l2 : List α}, l1.Perm l2 → l1.Pairwise R → l2.Pairwise R →
      (∀ a ∈ l1, ∀ b ∈ l1, R a b → R b a → a = b) → l1 = l2 := by
  intro l1
  induction l1 with
  | nil =>
    intro l2 hp _ _ _
    exact (hp.symm.eq_nil).symm
  | cons a t1 ih =>
    intro l2 hp h1 h2 hanti
    cases l2 with
    | nil =>
      have := hp.eq_nil
      simp at this
    | cons b t2 =>
      have hab : a = b := by
        by_contra hne
        have ha2 : a ∈ b :: t2 := hp.mem_iff.mp (List.mem_cons_self a t1)
        have hb1 : b ∈ a :: t1 := hp.mem_iff.mpr (List.mem_cons_self b t2)
        have hat2 : a ∈ t2 := by
          rcases List.mem_cons.mp ha2 with h | h
          · exact absurd h hne
          · exact h
        have hbt1 : b ∈ t1 := by
          rcases List.mem_cons.mp hb1 with h | h
          · exact absurd h.symm hne
          · exact h
        have hRab : R a b := (List.pairwise_cons.mp h1).1 b hbt1
        have hRba : R b a := (List.pairwise_cons.mp h2).1 a hat2
        exact hne (hanti a (List.mem_cons_self a t1) b (List.mem_cons_of_mem a hbt1) hRab hRba)
      subst hab
      have ht : t1.Perm t2 := hp.cons_inv
      have htail := ih ht (List.pairwise_cons.mp h1).2 (List.pairwise_cons.mp h2).2
        (fun u hu v hv => hanti u (List.mem_cons_of_mem a hu) v (List.mem_cons_of_mem a hv))
      rw [htail]

/-- A permutation of a two-element list is one of its two arrangements. -/
theorem perm_pair {α : Type} {a b : α} :
    ∀ {l : List α}, l.Perm [a, b] → l = [a, b] ∨ l = [b, a] := by
  intro l hp
  have hlen : l.length = 2 := by simpa using hp.length_eq
  rcases l with _ | ⟨x, _ | ⟨y, _ | ⟨z, t⟩⟩⟩
  · simp at hlen
  · simp at hlen
  · have hx : x ∈ [a, b] := hp.mem_iff.mp (List.mem_cons_self x [y])
    rcases List.mem_cons.mp hx with rfl | hx2
    · left
      have hyb := List.perm_singleton.mp hp.cons_inv
      rw [hyb]
    · have hxb : x = b := by simpa using hx2
      subst hxb
      right
      have hswap : List.Perm [x, y] [x, a] := hp.trans (List.Perm.swap x a [])
      have hya := List.perm_singleton.mp hswap.cons_inv
      rw [hya]
  · simp at hlen

/-- Joining a non-empty list of strings splits off its head. -/
theorem string_join_cons (s : String) (l : List String) :
    String.join (s :: l) = s ++ String.join l := by
  apply String.ext
  simp

/-- With only non-empty categories, the change loop emits all lines. -/
theorem write_changes_ok :
    ∀ changes : List Change, (∀ c ∈ changes, c.category ≠ "") →
      write_changes changes = Except.ok (String.join (changes.map changeLine)) := by
  intro changes h
  induction changes with
  | nil => rfl
  | cons c rest ih =>
    have hc : c.category ≠ "" := h c (List.mem_cons_self c rest)
    have hrest := ih fun d hd => h d (List.mem_cons_of_mem c hd)
    simp [write_changes, hc, hrest, string_join_cons]

/-- A change with an empty category makes the loop trip the assertion. -/
theorem write_changes_err :
    ∀ changes : List Change, (∃ c ∈ changes, c.category = "") →
      write_changes changes = Except.error "categores cannot be empty" := by
  intro changes h
  induction changes with
  | nil => simp at h
  | cons c rest ih =>
    by_cases hc : c.category = ""
    · simp [write_changes, hc]
    · rcases h with ⟨d, hd, hcat⟩
      rcases List.mem_cons.mp hd with rfl | hd2
      · exact absurd hcat hc
      · have := ih ⟨d, hd2, hcat⟩
        simp [write_changes, hc, this]

/-- `write_list` refines the closed-form category block when every
category label is non-empty. -/
theorem write_list_ok (header : String) (changes : List Change)
    (h : ∀ c ∈ changes, c.category ≠ "") :
    write_list header changes = Except.ok (catBlock header changes) := by
  cases hc : changes.isEmpty
  · have hbody := write_changes_ok changes h
    simp [write_list, catBlock, hc, hbody]
  · simp [write_list, catBlock, hc]

/-- `write_list` fails with the assertion message when some category is
empty. -/
theorem write_list_err (header : String) (changes : List Change)
    (h : ∃ c ∈ changes, c.category = "") :
    write_list header changes = Except.error "categores cannot be empty" := by
  have hne : changes ≠ [] := by
    rcases h with ⟨c, hc, _⟩
    exact List.ne_nil_of_mem hc
  have hbody := write_changes_err changes h
  simp [write_list, List.isEmpty_iff, hne, hbody]

/-- Every `write_list` outcome is either a block or the assertion
message. -/
theorem write_list_cases (header : String) (changes : List Change) :
    write_list header changes = Except.ok (catBlock header changes)
    ∨ write_list header changes = Except.error "categores cannot be empty" := by
  by_cases h : ∀ c ∈ changes, c.category ≠ ""
  · exact Or.inl (write_list_ok header changes h)
  · refine Or.inr (write_list_err header changes ?_)
    push_neg at h
    rcases h with ⟨c, hc, hcat⟩
    exact ⟨c, hc, hcat⟩

/-- The success shape of `generate_msg` given the four blocks. -/
theorem generate_msg_ok (choice : List Author) (rel : Release) {a b c d : String}
    (hA : write_list "### Added" rel.added = Except.ok a)
    (hB : write_list "### Changed" rel.changed = Except.ok b)
    (hC : write_list "### Fixed" rel.fixed = Except.ok c)
    (hD : write_list "### Removed" rel.removed = Except.ok d) :
    generate_msg choice rel
      = Except.ok ("Thanks to the following for their contributions:\n\n"
        ++ authorBullets (sortAuthors choice) ++ "\n"
        ++ a ++ b ++ c ++ d
        ++ authorLinkLines (sortAuthors choice) ++ "\n"
        ++ commitLinkLines rel.repo_url rel.get_commits) := by
  unfold generate_msg
  rw [hA, hB, hC, hD]

/-- An error from any of the four blocks aborts `generate_msg` with it. -/
theorem generate_msg_err_block (choice : List Author) (rel : Release) {e : String}
    (h : write_list "### Added" rel.added = Except.error e
      ∨ write_list "### Changed" rel.changed = Except.error e
      ∨ write_list "### Fixed" rel.fixed = Except.error e
      ∨ write_list "### Removed" rel.removed = Except.error e)
    (hsame : ∀ header changes, write_list header changes = Except.ok (catBlock header changes)
      ∨ write_list header changes = Except.error e) :
    generate_msg choice rel = Except.error e := by
  unfold generate_msg
  rcases hsame "### Added" rel.added with hA | hA <;> rw [hA]
  · rcases hsame "### Changed" rel.changed with hB | hB <;> rw [hB]
    · rcases hsame "### Fixed" rel.fixed with hC | hC <;> rw [hC]
      · rcases hsame "### Removed" rel.removed with hD | hD <;> rw [hD]
        rcases h with h | h | h | h
        · rw [hA] at h; cases h
        · rw [hB] at h; cases h
        · rw [hC] at h; cases h
        · rw [hD] at h; cases h

/-- A successful render forces all categories non-empty and decomposes
into the thanks section, the four category blocks, and the link lines. -/
theorem generate_msg_ok_shape (choice : List Author) (rel : Release) (out : String)
    (h : generate_msg choice rel = Except.ok out) :
    (∀ c ∈ rel.iter, c.category ≠ "")
    ∧ out = "Thanks to the following for their contributions:\n\n"
        ++ authorBullets (sortAuthors choice) ++ "\n"
        ++ catBlock "### Added" rel.added ++ catBlock "### Changed" rel.changed
        ++ catBlock "### Fixed" rel.fixed ++ catBlock "### Removed" rel.removed
        ++ authorLinkLines (sortAuthors choice) ++ "\n"
        ++ commitLinkLines rel.repo_url rel.get_commits := by
  have hcats : ∀ c ∈ rel.iter, c.category ≠ "" := by
    intro c hc hcat
    have hc2 : c ∈ rel.added ++ rel.changed ++ rel.fixed ++ rel.removed := hc
    have hside : write_list "### Added" rel.added = Except.error "categores cannot be empty"
        ∨ write_list "### Changed" rel.changed = Except.error "categores cannot be empty"
        ∨ write_list "### Fixed" rel.fixed = Except.error "categores cannot be empty"
        ∨ write_list "### Removed" rel.removed = Except.error "categores cannot be empty" := by
      rcases List.mem_append.mp hc2 with h1 | h1
      · rcases List.mem_append.mp h1 with h2 | h2
        · rcases List.mem_append.mp h2 with h3 | h3
          · exact Or.inl (write_list_err _ _ ⟨c, h3, hcat⟩)
          · exact Or.inr (Or.inl (write_list_err _ _ ⟨c, h3, hcat⟩))
        · exact Or.inr (Or.inr (Or.inl (write_list_err _ _ ⟨c, h2, hcat⟩)))
      · exact Or.inr (Or.inr (Or.inr (write_list_err _ _ ⟨c, h1, hcat⟩)))
    have hmsg := generate_msg_err_block choice rel hside write_list_cases
    rw [hmsg] at h
    cases h
  refine ⟨hcats, ?_⟩
  have hA := write_list_ok "### Added" rel.added
    (fun d hd => hcats d (List.mem_append_left _ (List.mem_append_left _ (List.mem_append_left _ hd))))
  have hB := write_list_ok "### Changed" rel.changed
    (fun d hd => hcats d (List.mem_append_left _ (List.mem_append_left _ (List.mem_append_right _ hd))))
  have hC := write_list_ok "### Fixed" rel.fixed
    (fun d hd => hcats d (List.mem_append_left _ (List.mem_append_right _ hd)))
  have hD := write_list_ok "### Removed" rel.removed
    (fun d hd => hcats d (List.mem_append_right _ hd))
  have hfull := generate_msg_ok choice rel hA hB hC hD
  rw [hfull] at h
  exact (Except.ok.inj h).symm

/-- Claim C5: whatever enumeration order the author hash set produced,
the thanks-section author list is sorted case-insensitively ascending and
contains each referenced author exactly once; on the spec's example
(authors bob, Alice, bob) it is exactly [Alice, bob]; and every
successful render opens with exactly those bullets. -/
theorem thanks_authors_dedup_sorted :
    (∀ (rel : Release) (choice : List Author), rel.ValidAuthors choice →
        (sortAuthors choice).Pairwise (fun a b => authorLe a b = true)
        ∧ (sortAuthors choice).Nodup
        ∧ (∀ a : Author, a ∈ sortAuthors choice ↔ a ∈ rel.allAuthors))
    ∧ (∀ choice : List Author, relC5.ValidAuthors choice →
        sortAuthors choice = [Author.mk "Alice", Author.mk "bob"])
    ∧ (∀ (rel : Release) (choice : List Author) (out : String),
        generate_msg choice rel = Except.ok out →
        ∃ rest, out = "Thanks to the following for their contributions:\n\n"
          ++ authorBullets (sortAuthors choice) ++ "\n" ++ rest) := by
  refine ⟨?_, ?_, ?_⟩
  · intro rel choice hch
    have hsp := stableSort_perm authorLe choice
    refine ⟨pairwise_stableSort authorLe authorLe_trans authorLe_total choice, ?_, ?_⟩
    · have hnd : choice.Nodup := hch.symm.nodup (List.nodup_dedup _)
      exact hsp.symm.nodup hnd
    · intro a
      have hm1 : a ∈ sortAuthors choice ↔ a ∈ choice := hsp.mem_iff
      have hm2 : a ∈ choice ↔ a ∈ rel.authorSet := hch.mem_iff
      have hm3 : a ∈ rel.authorSet ↔ a ∈ rel.allAuthors := List.mem_dedup
      exact hm1.trans (hm2.trans hm3)
  · intro choice hch
    have hset : relC5.authorSet = [Author.mk "Alice", Author.mk "bob"] := by decide
    have hch2 : choice.Perm [Author.mk "Alice", Author.mk "bob"] := by
      rw [← hset]
      exact hch
    rcases perm_pair hch2 with rfl | rfl
    · decide
    · decide
  · intro rel choice out h
    rcases generate_msg_ok_shape choice rel out h with ⟨-, hout⟩
    refine ⟨catBlock "### Added" rel.added ++ catBlock "### Changed" rel.changed
      ++ catBlock "### Fixed" rel.fixed ++ catBlock "### Removed" rel.removed
      ++ authorLinkLines (sortAuthors choice) ++ "\n"
      ++ commitLinkLines rel.repo_url rel.get_commits, ?_⟩
    rw [hout]
    simp [String.append_assoc]

/-- Witness for claim C5: the example's hash set enumerated as
[bob, Alice] still sorts to [Alice, bob]. -/
theorem thanks_authors_dedup_sorted_witness :
    sortAuthors [Author.mk "bob", Author.mk "Alice"]
      = [Author.mk "Alice", Author.mk "bob"] :=
  thanks_authors_dedup_sorted.2.1 [Author.mk "bob", Author.mk "Alice"] (by decide)

/-- Claim C6: `get_commits` lists the commit references of the four
categories in fixed order, nested change order and commit order, without
deduplication, and every successful render ends with one link line per
such reference in that order. -/
theorem commit_links_order_no_dedup :
    (∀ rel : Release,
        rel.get_commits
          = (rel.added ++ rel.changed ++ rel.fixed ++ rel.removed).flatMap Change.commits)
    ∧ (∀ c : Commit, Commit.display c = "[c:" ++ c.hash.take 7 ++ "]")
    ∧ (∀ (repoUrl : String) (commits : List Commit),
        commitLinkLines repoUrl commits
          = String.join (commits.map fun c =>
              Commit.display c ++ ": " ++ repoUrl ++ "/commit/" ++ c.hash ++ "\n"))
    ∧ (∀ (rel : Release) (choice : List Author) (out : String),
        generate_msg choice rel = Except.ok out →
        ∃ pre, out = pre ++ commitLinkLines rel.repo_url rel.get_commits) := by
  refine ⟨fun rel => rfl, fun c => rfl, fun u cs => rfl, ?_⟩
  intro rel choice out h
  rcases generate_msg_ok_shape choice rel out h with ⟨-, hout⟩
  exact ⟨_, hout⟩

/-- Witness for claim C6 at a concrete successful render. -/
theorem commit_links_order_no_dedup_witness :
    ∃ pre, exceptPayload (generate_msg [Author.mk "Alice", Author.mk "bob"] relC5)
      = pre ++ commitLinkLines relC5.repo_url relC5.get_commits :=
  commit_links_order_no_dedup.2.2.2 relC5 [Author.mk "Alice", Author.mk "bob"] _ rfl

/-- Claim C7: an empty category emits nothing; a non-empty one emits its
heading, a blank line, one line per change in order (category, name,
space-separated mention links, space-separated short commit references),
and a trailing blank line; the four blocks appear in the fixed order
inside every successful render. -/
theorem category_block_rendering :
    (∀ (header : String) (changes : List Change),
        (changes = [] → write_list header changes = Except.ok "")
        ∧ ((∀ c ∈ changes, c.category ≠ "") →
            write_list header changes = Except.ok (catBlock header changes)))
    ∧ (∀ (header : String) (changes : List Change), changes ≠ [] →
        catBlock header changes
          = header ++ "\n\n" ++ String.join (changes.map changeLine) ++ "\n")
    ∧ (∀ c : Change, changeLine c
        = "- [" ++ c.category ++ "] " ++ c.name ++ " ("
          ++ write_separated " " (c.authors.map Author.display) ++ ") "
          ++ write_separated " " (c.commits.map Commit.display) ++ "\n")
    ∧ (∀ a : Author, Author.display a = "[@" ++ a.name ++ "]")
    ∧ (∀ (rel : Release) (choice : List Author) (out : String),
        generate_msg choice rel = Except.ok out →
        ∃ pre post, out = pre
          ++ catBlock "### Added" rel.added ++ catBlock "### Changed" rel.changed
          ++ catBlock "### Fixed" rel.fixed ++ catBlock "### Removed" rel.removed
          ++ post) := by
  refine ⟨?_, ?_, fun c => rfl, fun a => rfl, ?_⟩
  · intro header changes
    constructor
    · intro h
      subst h
      rfl
    · exact write_list_ok header changes
  · intro header changes h
    match changes, h with
    | c :: cs, _ => rfl
  · intro rel choice out h
    rcases generate_msg_ok_shape choice rel out h with ⟨-, hout⟩
    refine ⟨"Thanks to the following for their contributions:\n\n"
      ++ authorBullets (sortAuthors choice) ++ "\n",
      authorLinkLines (sortAuthors choice) ++ "\n"
      ++ commitLinkLines rel.repo_url rel.get_commits, ?_⟩
    rw [hout]
    simp [String.append_assoc]

/-- Witness for claim C7: the example's Added block renders in the closed
category-block form. -/
theorem category_block_rendering_witness :
    write_list "### Added" relC5.added = Except.ok (catBlock "### Added" relC5.added) :=
  (category_block_rendering.1 "### Added" relC5.added).2 (by decide)

/-- Claim C8: the renderer checks at render time that every change's
category is non-empty: some empty category makes the render fail with the
assertion, and with all categories non-empty the assertion is unreachable
and rendering succeeds. -/
theorem render_empty_category_check :
    ∀ (rel : Release) (choice : List Author),
      ((∃ c ∈ rel.iter, c.category = "") →
          generate_msg choice rel = Except.error "categores cannot be empty")
      ∧ ((∀ c ∈ rel.iter, c.category ≠ "") →
          ∃ out, generate_msg choice rel = Except.ok out) := by
  intro rel choice
  constructor
  · intro h
    rcases h with ⟨c, hc, hcat⟩
    have hc2 : c ∈ rel.added ++ rel.changed ++ rel.fixed ++ rel.removed := hc
    refine generate_msg_err_block choice rel ?_ write_list_cases
    rcases List.mem_append.mp hc2 with h1 | h1
    · rcases List.mem_append.mp h1 with h2 | h2
      · rcases List.mem_append.mp h2 with h3 | h3
        · exact Or.inl (write_list_err _ _ ⟨c, h3, hcat⟩)
        · exact Or.inr (Or.inl (write_list_err _ _ ⟨c, h3, hcat⟩))
      · exact Or.inr (Or.inr (Or.inl (write_list_err _ _ ⟨c, h2, hcat⟩)))
    · exact Or.inr (Or.inr (Or.inr (write_list_err _ _ ⟨c, h1, hcat⟩)))
  · intro h
    exact ⟨_, generate_msg_ok choice rel
      (write_list_ok _ _ fun d hd => h d
        (List.mem_append_left _ (List.mem_append_left _ (List.mem_append_left _ hd))))
      (write_list_ok _ _ fun d hd => h d
        (List.mem_append_left _ (List.mem_append_left _ (List.mem_append_right _ hd))))
      (write_list_ok _ _ fun d hd => h d
        (List.mem_append_left _ (List.mem_append_right _ hd)))
      (write_list_ok _ _ fun d hd => h d (List.mem_append_right _ hd))⟩

/-- Witness for claim C8: a concrete empty-category release fails, a
concrete well-formed release succeeds. -/
theorem render_empty_category_check_witness :
    generate_msg [] relC8 = Except.error "categores cannot be empty"
    ∧ ∃ out, generate_msg [] relC5 = Except.ok out :=
  ⟨(render_empty_category_check relC8 []).1
      ⟨⟨"", "x", [Author.mk "a"], [Commit.mk "1234567"]⟩, by decide, rfl⟩,
   (render_empty_category_check relC5 []).2 (by decide)⟩

/-- Counterexample to claim C9 as stated: with two distinct authors whose
names differ only by case, the case-insensitive sort ties, the stable
sort keeps the hash set's enumeration order among them, and two valid
`get_authors` enumerations render differently. -/
theorem renderer_output_depends_on_set_order :
    relC9.ValidAuthors [Author.mk "Bob", Author.mk "bob"]
    ∧ relC9.ValidAuthors [Author.mk "bob", Author.mk "Bob"]
    ∧ generate_msg [Author.mk "Bob", Author.mk "bob"] relC9
        ≠ generate_msg [Author.mk "bob", Author.mk "Bob"] relC9 := by
  refine ⟨by decide, by decide, fun hcontra => ?_⟩
  have hpay := congrArg exceptPayload hcontra
  revert hpay
  decide

/-- Claim C9 (amended): the renderer is deterministic on every release
whose distinct authors have pairwise distinct lowercased names — then the
sorted author list, hence the whole output, is independent of the hash
set's enumeration order. (Without that proviso the output can depend on
it; see the counterexample.) -/
theorem renderer_deterministic_of_distinct_lowercase :
    ∀ (rel : Release) (c1 c2 : List Author),
      rel.ValidAuthors c1 → rel.ValidAuthors c2 →
      (∀ a ∈ rel.authorSet, ∀ b ∈ rel.authorSet,
        lowerChars a.name = lowerChars b.name → a = b) →
      generate_msg c1 rel = generate_msg c2 rel := by
  intro rel c1 c2 h1 h2 hinj
  have hs : sortAuthors c1 = sortAuthors c2 := by
    have hperm : (sortAuthors c1).Perm (sortAuthors c2) :=
      ((stableSort_perm authorLe c1).trans (h1.trans h2.symm)).trans
        (stableSort_perm authorLe c2).symm
    have hp1 := pairwise_stableSort authorLe authorLe_trans authorLe_total c1
    have hp2 := pairwise_stableSort authorLe authorLe_trans authorLe_total c2
    refine eq_of_perm_of_pairwise hperm hp1 hp2 ?_
    intro a ha b hb hab hba
    have ha2 : a ∈ rel.authorSet :=
      h1.mem_iff.mp ((stableSort_perm authorLe c1).mem_iff.mp ha)
    have hb2 : b ∈ rel.authorSet :=
      h1.mem_iff.mp ((stableSort_perm authorLe c1).mem_iff.mp hb)
    exact hinj a ha2 b hb2 (charListLe_antisymm _ _ hab hba)
  unfold generate_msg
  rw [hs]

/-- Witness for the amended claim C9 at two concrete enumerations of the
example release's author set. -/
theorem renderer_deterministic_of_distinct_lowercase_witness :
    generate_msg [Author.mk "bob", Author.mk "Alice"] relC5
      = generate_msg [Author.mk "Alice", Author.mk "bob"] relC5 :=
  renderer_deterministic_of_distinct_lowercase relC5
    [Author.mk "bob", Author.mk "Alice"] [Author.mk "Alice", Author.mk "bob"]
    (by decide) (by decide) (by decide)

/-- A walker with an empty cursor answers end-of-sequence and stays
unchanged. -/
theorem Git.next_empty_cursor (w : Commits) (h : w.cursor = []) :
    Commits.next w = (none, w) := by
  cases w with
  | mk repo cursor endOid =>
    cases h
    rfl

/-- An empty cursor persists through any number of further calls, each
answering end-of-sequence. -/
theorem Git.stepN_empty_cursor (w : Commits) (h : w.cursor = []) :
    ∀ n, (Commits.next (Commits.stepN n w)).1 = none := by
  intro n
  induction n generalizing w with
  | zero => rw [Commits.stepN, next_empty_cursor w h]
  | succ n ih =>
    rw [Commits.stepN, next_empty_cursor w h]
    exact ih w h

/-- Claim C1: once the walker has yielded the commit whose id equals the
end boundary, every subsequent call of `next` answers end-of-sequence;
and on the linear chain C1 (oldest), C2, C3 (tip), the walk
`commits("master").start(C3).end(C1)` yields exactly [C3, C2, C1] in that
order and nothing afterwards. -/
theorem walker_inclusive_end_boundary :
    (∀ (w w2 : Git.Commits) (c : Git.Commit),
        Git.Commits.next w = (some c, w2) → c.hash = w.endOid →
        ∀ n, (Git.Commits.next (Git.Commits.stepN n w2)).1 = none)
    ∧ Git.Commits.takeAll 10 Git.exampleWalker = [Git.recC3, Git.recC2, Git.recC1] := by
  constructor
  · intro w w2 c hnext hhash n
    cases w with
    | mk repo cursor endOid =>
      cases cursor with
      | nil => simp [Git.Commits.next] at hnext
      | cons oid rest =>
        cases hfind : Git.findCommit repo oid with
        | none => simp [Git.Commits.next, hfind] at hnext
        | some obj =>
          have hfind2 : repo.find? (fun d => d.id == oid) = some obj := hfind
          have hid : obj.id = oid := by
            have hp := List.find?_some hfind2
            simpa using hp
          simp only [Git.Commits.next, hfind] at hnext
          by_cases hoid : oid = endOid
          · rw [if_pos hoid] at hnext
            injection hnext with h1 h2
            subst h2
            exact Git.stepN_empty_cursor _ rfl n
          · rw [if_neg hoid] at hnext
            injection hnext with h1 h2
            have hc := Option.some.inj h1
            rw [← hc] at hhash
            have hoid2 : oid = endOid := by
              rw [← hid]
              exact hhash
            exact absurd hoid2 hoid
  · decide

/-- Witness for claim C1, applied at the step that yields the example's
boundary commit. -/
theorem walker_inclusive_end_boundary_witness :
    (Git.Commits.next (Git.Commits.stepN 3
        (Git.Commits.mk Git.exampleObjs [] Git.oid1))).1 = none :=
  walker_inclusive_end_boundary.1
    (Git.Commits.mk Git.exampleObjs [Git.oid1] Git.oid1)
    (Git.Commits.mk Git.exampleObjs [] Git.oid1)
    Git.recC1 (by decide) rfl 3
